import Mathlib

/-!
Verification of the conversation-orchestration core of the app-builder
repository against its natural-language specification.

The frontend sources (fe/src/components/Conversation/Conversation.tsx and
fe/src/services/sse.ts) are embedded directly.  The backend dialogue state
machine (backend/src/agents/app_creator/agent.py) and the turn coordinator
are not part of the source tree that was provided, so those components are
modelled from the specification text; every such definition carries a doc
comment that starts with the words Modelled from the spec.
-/

namespace Spec2Proof

/-- The message roles used by the Conversation component. -/
inductive Role
  | user
  | assistant
deriving DecidableEq, Repr

/-- Embeds the type tag union of `SSEEvent` from fe/src/services/sse.ts:
`"thought" | "tool_call" | "tool_call_result" | "text" | "error" |
"requirements_confirmed" | "done"`. -/
inductive SSEEventType
  | thought
  | tool_call
  | tool_call_result
  | text
  | error
  | requirements_confirmed
  | done
deriving DecidableEq, Repr

/-- The string form of each wire tag, exactly as the source writes them. -/
def SSEEventType.tag : SSEEventType → String
  | SSEEventType.thought => "thought"
  | SSEEventType.tool_call => "tool_call"
  | SSEEventType.tool_call_result => "tool_call_result"
  | SSEEventType.text => "text"
  | SSEEventType.error => "error"
  | SSEEventType.requirements_confirmed => "requirements_confirmed"
  | SSEEventType.done => "done"

/-- The payload object of a wire event (`event.data`).  The Conversation
handlers read `data.content` (text/thought payload), `data.message`
(error payload) and `data.type` (checked against "done" in the code
generation handler).  A missing or empty JS string is modelled as `""`,
which is falsy in the source. -/
structure EventData where
  content : String
  message : String
  dtype : String
deriving DecidableEq, Repr

/-- Embeds the `SSEEvent` interface of fe/src/services/sse.ts: a tagged
record with fields `type`, `data` and `timestamp`. -/
structure SSEEvent where
  type : SSEEventType
  data : EventData
  timestamp : String
deriving DecidableEq, Repr

/-- The field names of the `SSEEvent` interface, in declaration order.
This is the wire shape every event carries on the transport. -/
def sseEventFieldNames : List String := ["type", "data", "timestamp"]

/-- The list of wire tags admitted by the `SSEEvent` type union. -/
def sseEventTypeTags : List String :=
  ["thought", "tool_call", "tool_call_result", "text", "error",
   "requirements_confirmed", "done"]

/-- A chat message as kept in the `messages` React state of
Conversation.tsx: role, content, timestamp and attached events. -/
structure Message where
  role : Role
  content : String
  timestamp : String
  events : List SSEEvent
deriving DecidableEq, Repr

/-- The state manipulated by the event handler installed by
`handleSendMessage`: the `messages` state, the
`currentAssistantMessageIndexRef` ref, the per-call `sentMessageHashes`
set (kept as a duplicate-free list), the per-call `textEventCount`
counter and the `error` state. -/
structure ConvState where
  messages : List Message
  currentIndex : Option Nat
  sentMessageHashes : List String
  textEventCount : Nat
  errorMsg : Option String
deriving DecidableEq, Repr

/-- The fallback scan of the handler: walk the message list and remember
the index of the last assistant message, as the loop at the top of
`eventHandler` does. -/
def findLastAssistantAux : List Message → Nat → Option Nat → Option Nat
  | [], _, acc => acc
  | m :: rest, i, acc =>
      findLastAssistantAux rest (i + 1)
        (if m.role = Role.assistant then some i else acc)

/-- Index of the last assistant message, or `none` when there is none. -/
def findLastAssistantIndex (ms : List Message) : Option Nat :=
  findLastAssistantAux ms 0 none

/-- Resolve the target index as `eventHandler` does: use the ref when it
is set, otherwise fall back to the last assistant message. -/
def resolveIndex (s : ConvState) : Option Nat :=
  match s.currentIndex with
  | some i => some i
  | none => findLastAssistantIndex s.messages

/-- The in-place update performed by the `text` branch of `eventHandler`:
re-verify the index, require an assistant message there, then replace the
entire `content` field with the payload and refresh the timestamp
(`event.timestamp || targetMessage.timestamp`, where the empty string is
falsy). -/
def setMessageContent (ms : List Message) (i : Nat) (c ts : String) :
    List Message :=
  match ms[i]? with
  | some m =>
      if m.role = Role.assistant then
        ms.set i ⟨m.role, c, if ts = "" then m.timestamp else ts, m.events⟩
      else ms
  | none => ms

/-- Embeds the `addEventToMessage` helper of Conversation.tsx: append the
event to the `events` list of the message at the given index, provided
the index is in range and the message is an assistant message. -/
def addEventToMessage (ms : List Message) (i : Nat) (e : SSEEvent) :
    List Message :=
  match ms[i]? with
  | some m =>
      if m.role = Role.assistant then
        ms.set i ⟨m.role, m.content, m.timestamp, m.events ++ [e]⟩
      else ms
  | none => ms

/-- Embeds the `eventHandler` closure created inside `handleSendMessage`
of Conversation.tsx.  The index fallback and the early return happen
before the dispatch on `event.type`; the `text` branch drops empty
content, consults `sentMessageHashes`, and on acceptance records the
hash, bumps `textEventCount` and overwrites the current assistant
message content; `thought`, `tool_call` and `tool_call_result` append to
the events of the current message; `requirements_confirmed` only
triggers side-effecting refreshes; `error` stores the error message;
`done` has no branch and falls through. -/
def handleEvent (s : ConvState) (e : SSEEvent) : ConvState :=
  match resolveIndex s with
  | none => s
  | some i =>
    let s1 : ConvState := { s with currentIndex := some i }
    match e.type with
    | SSEEventType.text =>
        let c := e.data.content
        if c = "" then s1
        else if c ∈ s1.sentMessageHashes then s1
        else
          { s1 with
            sentMessageHashes := s1.sentMessageHashes ++ [c],
            textEventCount := s1.textEventCount + 1,
            messages := setMessageContent s1.messages i c e.timestamp }
    | SSEEventType.thought =>
        { s1 with messages := addEventToMessage s1.messages i e }
    | SSEEventType.tool_call =>
        { s1 with messages := addEventToMessage s1.messages i e }
    | SSEEventType.tool_call_result =>
        { s1 with messages := addEventToMessage s1.messages i e }
    | SSEEventType.requirements_confirmed => s1
    | SSEEventType.error =>
        { s1 with errorMsg := some e.data.message }
    | SSEEventType.done => s1

/-- The user message appended by `handleSendMessage`. -/
def mkUserMessage (m ts : String) : Message := ⟨Role.user, m, ts, []⟩

/-- The empty assistant placeholder appended by `handleSendMessage`. -/
def mkAssistantPlaceholder (ts : String) : Message :=
  ⟨Role.assistant, "", ts, []⟩

/-- The state set up at the start of `handleSendMessage`: the user
message and an empty assistant placeholder are appended, the ref is
pointed at the placeholder, and fresh (empty) `sentMessageHashes` and
`textEventCount` are created for this call. -/
def sendInit (prev : List Message) (m ts : String) : ConvState :=
  ⟨prev ++ [mkUserMessage m ts, mkAssistantPlaceholder ts],
   some (prev.length + 1), [], 0, none⟩

/-- Deliver a stream of events to the handler, in arrival order. -/
def processEvents (s : ConvState) (es : List SSEEvent) : ConvState :=
  es.foldl handleEvent s

/-- A text wire event with the given payload content. -/
def mkTextEvent (c : String) : SSEEvent :=
  ⟨SSEEventType.text, ⟨c, "", ""⟩, ""⟩

/-- The state manipulated by the `startCodeGeneration` event handler:
the `messages` state, the `error` state, and the `isGenerating` flag. -/
structure GenState where
  messages : List Message
  errorMsg : Option String
  isGenerating : Bool
deriving DecidableEq, Repr

/-- Update the last element of the message list when it is an assistant
message, exactly as `prev.slice(0, -1)` plus a rebuilt last element. -/
def genUpdateLast (ms : List Message) (f : Message → Message) :
    List Message :=
  match ms.getLast? with
  | some m =>
      if m.role = Role.assistant then ms.dropLast ++ [f m] else ms
  | none => ms

/-- The announcement message appended when code generation starts. -/
def generationStartText : String :=
  "🚀 开始生成代码... 请稍候，我会在容器中创建您的应用程序。"

/-- Embeds the `eventHandler` closure of `startCodeGeneration` in
Conversation.tsx: `text` overwrites the content of the last assistant
message with the event payload (no dedup, no emptiness check);
`thought`, `tool_call` and `tool_call_result` append to the events of
the last assistant message; `error` records the message (or the default
generation-failure text) and clears `isGenerating`; `done` (either as
the event type or as `data.type`) clears `isGenerating`. -/
def genHandleEvent (s : GenState) (e : SSEEvent) : GenState :=
  if e.type = SSEEventType.text then
    { s with
      messages := genUpdateLast s.messages
        (fun m => ⟨m.role, e.data.content, m.timestamp, m.events⟩) }
  else if e.type = SSEEventType.thought ∨ e.type = SSEEventType.tool_call
      ∨ e.type = SSEEventType.tool_call_result then
    { s with
      messages := genUpdateLast s.messages
        (fun m => ⟨m.role, m.content, m.timestamp, m.events ++ [e]⟩) }
  else if e.type = SSEEventType.error then
    ⟨s.messages,
     some (if e.data.message = "" then "代码生成失败" else e.data.message),
     false⟩
  else if e.type = SSEEventType.done ∨ e.data.dtype = "done" then
    { s with isGenerating := false }
  else s

/-- The state set up by `startCodeGeneration`: a fresh assistant message
announcing generation is appended and `isGenerating` is set. -/
def genInit (prev : List Message) (ts : String) : GenState :=
  ⟨prev ++ [⟨Role.assistant, generationStartText, ts, []⟩], none, true⟩

/-- Embeds the `event_generator` accumulator of
backend/src/api/conversations.py as quoted in DUPLICATE_MESSAGE_FIX.md:
the running `seen_text_contents` set (kept as a duplicate-free list) and
the single `assistant_content` slot that each accepted text payload
overwrites. -/
structure ApiAccum where
  seen_text_contents : List String
  assistant_content : String
deriving DecidableEq, Repr

/-- One text payload arriving at the API accumulator: empty content is
ignored; unseen content is recorded and overwrites `assistant_content`;
already-seen content only replaces it when strictly longer. -/
def apiStep (a : ApiAccum) (content : String) : ApiAccum :=
  if content = "" then a
  else if content ∈ a.seen_text_contents then
    if a.assistant_content.length < content.length then
      ⟨a.seen_text_contents, content⟩
    else a
  else ⟨a.seen_text_contents ++ [content], content⟩

/-- Fold a whole stream of text payloads through the API accumulator. -/
def apiFold (cs : List String) : ApiAccum :=
  cs.foldl apiStep ⟨[], ""⟩

/-- A message as returned by the conversation API
(`conversation.messages` in `loadConversation`); `events` is optional
and defaults to the empty list via `msg.events || []`. -/
structure ApiMessage where
  role : Role
  content : String
  timestamp : String
  events : Option (List SSEEvent)
deriving DecidableEq, Repr

/-- The per-message formatting applied by `loadConversation`. -/
def formatMessage (m : ApiMessage) : Message :=
  ⟨m.role, m.content, m.timestamp, m.events.getD []⟩

/-- The component state produced by mounting the Conversation component
(an attach): `loadConversation` replays the persisted transcript into
the `messages` state once and resets the current-index ref; no SSE
connection is opened by the mount path, so `sseConnected` is false
(`sseClient.connect` is called only inside `handleSendMessage` and
`startCodeGeneration`). -/
structure MountedState where
  messages : List Message
  currentIndex : Option Nat
  sseConnected : Bool
deriving DecidableEq, Repr

/-- Mounting the component with a persisted transcript. -/
def mountComponent (persisted : List ApiMessage) : MountedState :=
  ⟨persisted.map formatMessage, none, false⟩

/-- Delivery of a live wire event to a mounted component: events reach
the registered callbacks through `eventSource.onmessage`, which only
fires on an open `EventSource`; with no connection the event is not
received and the state is unchanged. -/
def receiveLiveEvent (st : MountedState) (e : SSEEvent) : MountedState :=
  if st.sseConnected then
    ⟨(handleEvent ⟨st.messages, st.currentIndex, [], 0, none⟩ e).messages,
     st.currentIndex, true⟩
  else st

/-- Modelled from the spec: the structured requirements plus outstanding
clarifying questions carried through a turn (the dialogue state machine
itself, backend/src/agents/app_creator/agent.py, is not in the provided
source tree). -/
structure RequirementsSnapshot where
  requirements : Option String
  clarifyingQuestions : List String
deriving DecidableEq, Repr

/-- Modelled from the spec: a snapshot is finalized when requirements
are present and the clarifying-question list is empty. -/
def RequirementsSnapshot.finalized (rs : RequirementsSnapshot) : Bool :=
  rs.requirements.isSome && rs.clarifyingQuestions.isEmpty

/-- Modelled from the spec: the named stages of the dialogue state
machine, with the two terminal states. -/
inductive Stage
  | converse
  | extractRequirements
  | generateClarifications
  | confirm
  | handoff
  | done
  | failed
deriving DecidableEq, Repr

/-- Whether a stage is terminal for the turn. -/
def Stage.isTerminal : Stage → Bool
  | Stage.done => true
  | Stage.failed => true
  | _ => false

/-- Modelled from the spec: the payload of an emitted unit, with the
confirmation summary kept as a distinguished shape because `Confirm` is
specified as the single point that generates confirmation text. -/
inductive Payload
  | llmText (t : String)
  | confirmation (req : String)
  | errorText (t : String)
  | handoffSignal (req : String)
deriving DecidableEq, Repr

/-- Whether a payload is a confirmation-shaped message. -/
def Payload.isConfirmationShaped : Payload → Bool
  | Payload.confirmation _ => true
  | _ => false

/-- Modelled from the spec: the kinds an EmittedUnit may have. -/
inductive UnitKind
  | reasoningNote
  | toolInvocation
  | toolResult
  | assistantText
  | errorUnit
deriving DecidableEq, Repr

/-- Modelled from the spec: an atomic streamable and persistable unit,
carrying its kind, payload and the stage execution that produced it. -/
structure EmittedUnit where
  kind : UnitKind
  payload : Payload
  stage : Stage
deriving DecidableEq, Repr

/-- Modelled from the spec: the external collaborators, indexed by the
number of collaborator calls made so far in the turn; a failure of the
underlying completion service is an `Except.error` carrying the cause. -/
structure Collab where
  complete : Nat → Except String String
  extract : Nat → Except String (Option RequirementsSnapshot)
  clarify : Nat → Except String (List String)

/-- Modelled from the spec: the state of one turn of the dialogue state
machine: current stage, the RequirementsSnapshot, the units emitted so
far, the completion-service calls made so far (tagged with the calling
stage) and the `requirementsConfirmed` flag. -/
structure TurnState where
  stage : Stage
  rs : RequirementsSnapshot
  units : List EmittedUnit
  calls : List Stage
  requirementsConfirmed : Bool
deriving DecidableEq, Repr

/-- Modelled from the spec: the transition rule evaluated after every
Converse execution. -/
def routeAfterConverse (rs : RequirementsSnapshot) : Stage :=
  if rs.requirements.isNone then Stage.extractRequirements
  else if rs.clarifyingQuestions.isEmpty then Stage.confirm
  else Stage.generateClarifications

/-- The unit deterministically produced by the Confirm stage. -/
def confirmUnit (rs : RequirementsSnapshot) : EmittedUnit :=
  ⟨UnitKind.assistantText, Payload.confirmation (rs.requirements.getD ""),
   Stage.confirm⟩

/-- The single error unit surfaced by a failed collaborator call. -/
def errUnit (msg : String) (st : Stage) : EmittedUnit :=
  ⟨UnitKind.errorUnit, Payload.errorText msg, st⟩

/-- Modelled from the spec: one stage execution of the dialogue state
machine.  Converse short-circuits without a completion call or a unit
when the snapshot is already finalized; otherwise it calls the
completion service and emits the returned text.  ExtractRequirements and
GenerateClarifications populate the snapshot and return to Converse.
Confirm deterministically emits exactly one assistant-text unit, sets
`requirementsConfirmed` and moves to Done.  A collaborator failure emits
one error unit, leaves the snapshot untouched and moves to Failed.
Terminal states do not step. -/
def stepTurn (c : Collab) (t : TurnState) : TurnState :=
  match t.stage with
  | Stage.converse =>
      if t.rs.finalized then { t with stage := routeAfterConverse t.rs }
      else
        match c.complete t.calls.length with
        | Except.ok txt =>
            { t with
              stage := routeAfterConverse t.rs,
              calls := t.calls ++ [Stage.converse],
              units := t.units ++
                [⟨UnitKind.assistantText, Payload.llmText txt,
                  Stage.converse⟩] }
        | Except.error msg =>
            { t with
              stage := Stage.failed,
              calls := t.calls ++ [Stage.converse],
              units := t.units ++ [errUnit msg Stage.converse] }
  | Stage.extractRequirements =>
      match c.extract t.calls.length with
      | Except.ok (some rs) =>
          { t with
            stage := Stage.converse,
            calls := t.calls ++ [Stage.extractRequirements],
            rs := rs }
      | Except.ok none =>
          { t with
            stage := Stage.converse,
            calls := t.calls ++ [Stage.extractRequirements] }
      | Except.error msg =>
          { t with
            stage := Stage.failed,
            calls := t.calls ++ [Stage.extractRequirements],
            units := t.units ++ [errUnit msg Stage.extractRequirements] }
  | Stage.generateClarifications =>
      match c.clarify t.calls.length with
      | Except.ok qs =>
          { t with
            stage := Stage.converse,
            calls := t.calls ++ [Stage.generateClarifications],
            rs := ⟨t.rs.requirements, qs⟩ }
      | Except.error msg =>
          { t with
            stage := Stage.failed,
            calls := t.calls ++ [Stage.generateClarifications],
            units := t.units ++ [errUnit msg Stage.generateClarifications] }
  | Stage.confirm =>
      { t with
        stage := Stage.done,
        requirementsConfirmed := true,
        units := t.units ++ [confirmUnit t.rs] }
  | Stage.handoff =>
      { t with
        stage := Stage.done,
        units := t.units ++
          [⟨UnitKind.toolInvocation,
            Payload.handoffSignal (t.rs.requirements.getD ""),
            Stage.handoff⟩] }
  | Stage.done => t
  | Stage.failed => t

/-- A fresh turn starts in Converse with no units, no calls and the
confirmation flag unset. -/
def initTurn (rs : RequirementsSnapshot) : TurnState :=
  ⟨Stage.converse, rs, [], [], false⟩

/-- Run a turn for up to `fuel` stage executions, stopping at a
terminal stage. -/
def runTurn (c : Collab) : Nat → TurnState → TurnState
  | 0, t => t
  | Nat.succ n, t =>
      if t.stage.isTerminal then t else runTurn c n (stepTurn c t)

/-- Count of error units in a unit list. -/
def errCount (us : List EmittedUnit) : Nat :=
  (us.filter fun u => u.kind = UnitKind.errorUnit).length

/-- Modelled from the spec: the commands the Turn Coordinator reacts
to: a user message submission, or one scheduling tick that advances the
active turn by one stage execution (or starts the next queued turn). -/
inductive Cmd
  | submit (m : String)
  | tick
deriving Repr

/-- Modelled from the spec: the Turn Coordinator state for one
conversation: the id counter, the at-most-one active turn, the queue of
user messages waiting for the active turn, the trace of stage
executions (turn id paired with the executed stage, in execution order)
and the finished turns with their terminal stage. -/
structure CoordState where
  nextId : Nat
  active : Option (Nat × TurnState)
  queue : List String
  trace : List (Nat × Stage)
  finished : List (Nat × Stage)

/-- Modelled from the spec: one coordinator step.  A submission is
queued (never interleaved).  A tick starts the next queued turn when no
turn is active, retires an active turn that reached a terminal stage
(releasing the lock), and otherwise advances the active turn by exactly
one stage execution, recording it in the trace. -/
def stepCoord (c : Collab) (s : CoordState) : Cmd → CoordState
  | Cmd.submit m => { s with queue := s.queue ++ [m] }
  | Cmd.tick =>
      match s.active with
      | none =>
          match s.queue with
          | [] => s
          | _ :: rest =>
              { s with
                active := some (s.nextId, initTurn ⟨none, []⟩),
                nextId := s.nextId + 1,
                queue := rest }
      | some (id, t) =>
          if t.stage.isTerminal then
            { s with active := none, finished := s.finished ++ [(id, t.stage)] }
          else
            { s with
              active := some (id, stepTurn c t),
              trace := s.trace ++ [(id, t.stage)] }

/-- The empty coordinator. -/
def initCoord : CoordState := ⟨0, none, [], [], []⟩

/-- Run the coordinator over a command sequence. -/
def runCoord (c : Collab) (cmds : List Cmd) : CoordState :=
  cmds.foldl (stepCoord c) initCoord

/-- The serialization property of a coordinator state: turn ids never
interleave in the stage-execution trace (every earlier entry has an id
at most that of every later entry), and every turn appearing in the
trace other than the single active one has finished in Done or
Failed. -/
def turnSerialized (s : CoordState) : Prop :=
  s.trace.Pairwise (fun a b => a.1 ≤ b.1) ∧
  ∀ e ∈ s.trace,
    (∃ q ∈ s.finished,
        q.1 = e.1 ∧ (q.2 = Stage.done ∨ q.2 = Stage.failed)) ∨
    (∃ t, s.active = some (e.1, t))

/-- Modelled from the spec: the wire kinds the specification prescribes
for transport events; compared below with the tags the source actually
uses. -/
def specWireKinds : List String :=
  ["reasoning", "tool_call", "tool_result", "text", "error", "done"]

/-- Modelled from the spec: the field names the specification prescribes
for the wire record; compared below with the fields the source actually
declares. -/
def specWireFieldNames : List String :=
  ["kind", "payload", "turnId", "sequence"]

/-! ### Helper lemmas about list indexing and shape preservation -/

lemma getElem?_some_lt {α : Type} {l : List α} {i : Nat} {x : α}
    (h : l[i]? = some x) : i < l.length := by
  by_contra hn
  push_neg at hn
  rw [List.getElem?_eq_none hn] at h
  exact Option.noConfusion h

lemma nodup_append_singleton {l : List String} {c : String}
    (h : l.Nodup) (hc : c ∉ l) : (l ++ [c]).Nodup := by
  rw [List.nodup_append]
  refine ⟨h, List.nodup_singleton c, ?_⟩
  intro a ha hb
  simp only [List.mem_singleton] at hb
  subst hb
  exact hc ha

/-- Both message-rewriting helpers preserve the number of messages,
the role of every message, and only ever extend an events list. -/
lemma set_message_shape {ms : List Message} {i : Nat} {m : Message}
    (hm : ms[i]? = some m) (tail : List SSEEvent)
    (rebuilt : Message)
    (hrole : rebuilt.role = m.role)
    (hevents : rebuilt.events = m.events ++ tail) :
    (ms.set i rebuilt).length = ms.length ∧
    ∀ (j : Nat) (mj : Message), ms[j]? = some mj →
      ∃ mj2 : Message, (ms.set i rebuilt)[j]? = some mj2 ∧
        mj2.role = mj.role ∧
        ∃ t2 : List SSEEvent, mj2.events = mj.events ++ t2 := by
  refine ⟨List.length_set .., ?_⟩
  intro j mj hj
  by_cases hij : i = j
  · subst hij
    rw [hm] at hj
    cases hj
    exact ⟨rebuilt, List.getElem?_set_self (getElem?_some_lt hm), hrole,
      tail, hevents⟩
  · exact ⟨mj, by rw [List.getElem?_set_ne hij, hj], rfl, [],
      (List.append_nil _).symm⟩

lemma setMessageContent_shape (ms : List Message) (i : Nat) (c ts : String) :
    (setMessageContent ms i c ts).length = ms.length ∧
    ∀ (j : Nat) (mj : Message), ms[j]? = some mj →
      ∃ mj2 : Message, (setMessageContent ms i c ts)[j]? = some mj2 ∧
        mj2.role = mj.role ∧
        ∃ t2 : List SSEEvent, mj2.events = mj.events ++ t2 := by
  cases hm : ms[i]? with
  | none =>
      rw [setMessageContent, hm]
      exact ⟨rfl, fun j mj hj => ⟨mj, hj, rfl, [], (List.append_nil _).symm⟩⟩
  | some m =>
      rw [setMessageContent, hm]
      dsimp only
      by_cases hrole : m.role = Role.assistant
      · rw [if_pos hrole]
        exact set_message_shape hm []
          ⟨m.role, c, if ts = "" then m.timestamp else ts, m.events⟩ rfl
          (List.append_nil _).symm
      · rw [if_neg hrole]
        exact ⟨rfl, fun j mj hj => ⟨mj, hj, rfl, [], (List.append_nil _).symm⟩⟩

lemma addEventToMessage_shape (ms : List Message) (i : Nat) (e : SSEEvent) :
    (addEventToMessage ms i e).length = ms.length ∧
    ∀ (j : Nat) (mj : Message), ms[j]? = some mj →
      ∃ mj2 : Message, (addEventToMessage ms i e)[j]? = some mj2 ∧
        mj2.role = mj.role ∧
        ∃ t2 : List SSEEvent, mj2.events = mj.events ++ t2 := by
  cases hm : ms[i]? with
  | none =>
      rw [addEventToMessage, hm]
      exact ⟨rfl, fun j mj hj => ⟨mj, hj, rfl, [], (List.append_nil _).symm⟩⟩
  | some m =>
      rw [addEventToMessage, hm]
      dsimp only
      by_cases hrole : m.role = Role.assistant
      · rw [if_pos hrole]
        exact set_message_shape hm [e]
          ⟨m.role, m.content, m.timestamp, m.events ++ [e]⟩ rfl rfl
      · rw [if_neg hrole]
        exact ⟨rfl, fun j mj hj => ⟨mj, hj, rfl, [], (List.append_nil _).symm⟩⟩

/-- The trivial shape fact for an unchanged message list. -/
lemma shape_refl (ms : List Message) :
    ms.length = ms.length ∧
    ∀ (j : Nat) (mj : Message), ms[j]? = some mj →
      ∃ mj2 : Message, ms[j]? = some mj2 ∧ mj2.role = mj.role ∧
        ∃ t2 : List SSEEvent, mj2.events = mj.events ++ t2 :=
  ⟨rfl, fun _ mj hj => ⟨mj, hj, rfl, [], (List.append_nil _).symm⟩⟩

/-- Reduction of the handler on an accepted text event: the hash is
recorded, the counter bumped, and the target message content rewritten. -/
lemma handleEvent_text_accept (s : ConvState) (i : Nat) (d : EventData)
    (ts2 : String) (hres : resolveIndex s = some i)
    (hc : ¬ d.content = "") (hmem : d.content ∉ s.sentMessageHashes) :
    handleEvent s ⟨SSEEventType.text, d, ts2⟩ =
      { s with currentIndex := some i,
               sentMessageHashes := s.sentMessageHashes ++ [d.content],
               textEventCount := s.textEventCount + 1,
               messages := setMessageContent s.messages i d.content ts2 } := by
  rw [handleEvent, hres]
  dsimp only
  rw [if_neg hc, if_neg hmem]

/-- Reduction of the handler on a rejected text event (empty or
duplicate content): only the ref is updated. -/
lemma handleEvent_text_skip (s : ConvState) (i : Nat) (d : EventData)
    (ts2 : String) (hres : resolveIndex s = some i)
    (h : d.content = "" ∨ d.content ∈ s.sentMessageHashes) :
    handleEvent s ⟨SSEEventType.text, d, ts2⟩ =
      { s with currentIndex := some i } := by
  rw [handleEvent, hres]
  dsimp only
  rcases h with h | h
  · rw [if_pos h]
  · by_cases hc : d.content = ""
    · rw [if_pos hc]
    · rw [if_neg hc, if_pos h]

/-- One handler step never adds or removes a message, never changes a
message role, and only ever extends an events list at its end. -/
lemma handleEvent_shape (s : ConvState) (e : SSEEvent) :
    (handleEvent s e).messages.length = s.messages.length ∧
    ∀ (j : Nat) (mj : Message), s.messages[j]? = some mj →
      ∃ mj2 : Message, (handleEvent s e).messages[j]? = some mj2 ∧
        mj2.role = mj.role ∧
        ∃ t2 : List SSEEvent, mj2.events = mj.events ++ t2 := by
  cases hres : resolveIndex s with
  | none => rw [handleEvent, hres]; exact shape_refl s.messages
  | some i =>
    obtain ⟨ty, d, ts2⟩ := e
    cases ty with
    | text =>
        by_cases hc : d.content = ""
        · rw [handleEvent_text_skip s i d ts2 hres (Or.inl hc)]
          exact shape_refl s.messages
        · by_cases hmem : d.content ∈ s.sentMessageHashes
          · rw [handleEvent_text_skip s i d ts2 hres (Or.inr hmem)]
            exact shape_refl s.messages
          · rw [handleEvent_text_accept s i d ts2 hres hc hmem]
            exact setMessageContent_shape s.messages i d.content ts2
    | thought =>
        rw [handleEvent, hres]
        exact addEventToMessage_shape s.messages i _
    | tool_call =>
        rw [handleEvent, hres]
        exact addEventToMessage_shape s.messages i _
    | tool_call_result =>
        rw [handleEvent, hres]
        exact addEventToMessage_shape s.messages i _
    | error =>
        rw [handleEvent, hres]
        exact shape_refl s.messages
    | requirements_confirmed =>
        rw [handleEvent, hres]
        exact shape_refl s.messages
    | done =>
        rw [handleEvent, hres]
        exact shape_refl s.messages

/-- One handler step keeps the dedup ledger duplicate-free. -/
lemma handleEvent_nodup (s : ConvState) (e : SSEEvent)
    (h : s.sentMessageHashes.Nodup) :
    (handleEvent s e).sentMessageHashes.Nodup := by
  cases hres : resolveIndex s with
  | none => rw [handleEvent, hres]; exact h
  | some i =>
    obtain ⟨ty, d, ts2⟩ := e
    cases ty with
    | text =>
        by_cases hc : d.content = ""
        · rw [handleEvent_text_skip s i d ts2 hres (Or.inl hc)]; exact h
        · by_cases hmem : d.content ∈ s.sentMessageHashes
          · rw [handleEvent_text_skip s i d ts2 hres (Or.inr hmem)]; exact h
          · rw [handleEvent_text_accept s i d ts2 hres hc hmem]
            exact nodup_append_singleton h hmem
    | thought => rw [handleEvent, hres]; exact h
    | tool_call => rw [handleEvent, hres]; exact h
    | tool_call_result => rw [handleEvent, hres]; exact h
    | error => rw [handleEvent, hres]; exact h
    | requirements_confirmed => rw [handleEvent, hres]; exact h
    | done => rw [handleEvent, hres]; exact h

/-- Folding a whole stream keeps the dedup ledger duplicate-free. -/
lemma processEvents_nodup (es : List SSEEvent) :
    ∀ s : ConvState, s.sentMessageHashes.Nodup →
      (processEvents s es).sentMessageHashes.Nodup := by
  induction es with
  | nil => intro s h; exact h
  | cons e es ih =>
      intro s h
      exact ih (handleEvent s e) (handleEvent_nodup s e h)

/-- One API accumulator step keeps `seen_text_contents` duplicate-free. -/
lemma apiStep_nodup (a : ApiAccum) (content : String)
    (h : a.seen_text_contents.Nodup) :
    (apiStep a content).seen_text_contents.Nodup := by
  rw [apiStep]
  by_cases hc : content = ""
  · rw [if_pos hc]; exact h
  · rw [if_neg hc]
    by_cases hmem : content ∈ a.seen_text_contents
    · rw [if_pos hmem]
      by_cases hl : a.assistant_content.length < content.length
      · rw [if_pos hl]; exact h
      · rw [if_neg hl]; exact h
    · rw [if_neg hmem]
      exact nodup_append_singleton h hmem

/-- Folding a payload stream keeps `seen_text_contents` duplicate-free. -/
lemma apiFoldAux_nodup (cs : List String) :
    ∀ a : ApiAccum, a.seen_text_contents.Nodup →
      (cs.foldl apiStep a).seen_text_contents.Nodup := by
  induction cs with
  | nil => intro a h; exact h
  | cons c cs ih =>
      intro a h
      exact ih (apiStep a c) (apiStep_nodup a c h)

/-- Reduction of the generation handler on a text event whose target is
an assistant message: the whole content is replaced by the payload. -/
lemma genHandleEvent_text (s : GenState) (c : String) (m : Message)
    (hm : s.messages.getLast? = some m) (hrole : m.role = Role.assistant) :
    (genHandleEvent s (mkTextEvent c)).messages =
      s.messages.dropLast ++ [⟨m.role, c, m.timestamp, m.events⟩] := by
  rw [genHandleEvent]
  dsimp only [mkTextEvent]
  rw [if_pos rfl]
  rw [genUpdateLast, hm]
  dsimp only
  rw [if_pos hrole]

/-- After folding any stream of text events through the generation
handler, the last message carries exactly the most recent payload. -/
lemma genFold_text_last (cs : List String) :
    ∀ (s : GenState) (m : Message),
      s.messages.getLast? = some m → m.role = Role.assistant →
      (((cs.map mkTextEvent).foldl genHandleEvent s).messages).getLast? =
        some ⟨m.role, cs.getLastD m.content, m.timestamp, m.events⟩ := by
  induction cs with
  | nil =>
      intro s m hm _
      exact hm
  | cons c cs ih =>
      intro s m hm hrole
      rw [List.map_cons, List.foldl_cons]
      have hstep := genHandleEvent_text s c m hm hrole
      have hlast : (genHandleEvent s (mkTextEvent c)).messages.getLast? =
          some ⟨m.role, c, m.timestamp, m.events⟩ := by
        rw [hstep]; exact List.getLast?_concat _
      have := ih (genHandleEvent s (mkTextEvent c))
        ⟨m.role, c, m.timestamp, m.events⟩ hlast hrole
      rw [this, List.getLastD_cons]

/-! ### Concrete streams used by the counterexamples -/

/-- The send-message state after one accepted text event with payload A. -/
def overwriteStream1 : ConvState :=
  processEvents (sendInit [] "hi" "t") [mkTextEvent "A"]

/-- The send-message state after accepted text events A then B. -/
def overwriteStream2 : ConvState :=
  processEvents (sendInit [] "hi" "t") [mkTextEvent "A", mkTextEvent "B"]

/-- A first turn whose accepted text unit has payload A. -/
def turnOne : ConvState :=
  processEvents (sendInit [] "u1" "t1") [mkTextEvent "A"]

/-- A later turn of the same conversation offering the byte-identical
payload A again. -/
def turnTwo : ConvState :=
  processEvents (sendInit turnOne.messages "u2" "t2") [mkTextEvent "A"]

/-- A component freshly attached to a persisted one-message transcript. -/
def attachSample : MountedState :=
  mountComponent [⟨Role.assistant, "hello", "t0", none⟩]

/-- C1 counterexample: the fingerprint A is offered once and accepted by
the ledger, yet after a later accepted text unit B it appears zero times
in the transcript, not exactly once. -/
theorem exactly_once_delivery_cex :
    "A" ∈ overwriteStream2.sentMessageHashes ∧
    (overwriteStream2.messages.filter fun m => m.content = "A").length = 0 := by
  decide

/-- C1 (amended): each fingerprint is accepted at most once per
filtering layer — the frontend ledger `sentMessageHashes` and the API
accumulator `seen_text_contents` each stay duplicate-free — so a
fingerprint appears at most once, and dedup happens at (at least) these
two distinct content-filtering points rather than a single choke
point. -/
theorem dedup_accepts_each_fingerprint_once :
    (∀ (prev : List Message) (u ts : String) (es : List SSEEvent),
        ((processEvents (sendInit prev u ts) es).sentMessageHashes).Nodup) ∧
    (∀ cs : List String, ((apiFold cs).seen_text_contents).Nodup) := by
  constructor
  · intro prev u ts es
    exact processEvents_nodup es (sendInit prev u ts) List.nodup_nil
  · intro cs
    exact apiFoldAux_nodup cs ⟨[], ""⟩ List.nodup_nil

/-- C4 counterexample: the byte-identical payload A, already delivered
in a finished turn of the conversation, is accepted again (not rejected)
by the next turn because `sentMessageHashes` is created afresh inside
every `handleSendMessage` call. -/
theorem ledger_lifetime_cex :
    turnTwo.textEventCount = 1 ∧
    turnTwo.sentMessageHashes = ["A"] ∧
    (turnTwo.messages.filter fun m => m.content = "A").length = 2 := by
  decide

/-- C4 (amended): the dedup ledger is scoped to a single send-message
call (one turn), not to the conversation: within one call a
byte-identical repeat is rejected, while a later turn starts with an
empty ledger. -/
theorem ledger_rejects_within_one_send (prev : List Message)
    (u ts c : String) (hc : ¬ c = "") :
    (processEvents (sendInit prev u ts)
        [mkTextEvent c, mkTextEvent c]).textEventCount = 1 ∧
    (processEvents (sendInit prev u ts)
        [mkTextEvent c, mkTextEvent c]).sentMessageHashes = [c] := by
  have hres : resolveIndex (sendInit prev u ts) = some (prev.length + 1) := rfl
  have hmem : (⟨c, "", ""⟩ : EventData).content ∉
      (sendInit prev u ts).sentMessageHashes := by
    intro h
    exact List.not_mem_nil _ h
  have h1 := handleEvent_text_accept (sendInit prev u ts) (prev.length + 1)
    ⟨c, "", ""⟩ "" hres hc hmem
  have h1e : handleEvent (sendInit prev u ts) (mkTextEvent c) =
      { sendInit prev u ts with
        currentIndex := some (prev.length + 1),
        sentMessageHashes := (sendInit prev u ts).sentMessageHashes ++ [c],
        textEventCount := (sendInit prev u ts).textEventCount + 1,
        messages := setMessageContent (sendInit prev u ts).messages
          (prev.length + 1) c "" } := h1
  have hres2 : resolveIndex (handleEvent (sendInit prev u ts)
      (mkTextEvent c)) = some (prev.length + 1) := by
    rw [h1e]
    rfl
  have hmem2 : (⟨c, "", ""⟩ : EventData).content ∈
      (handleEvent (sendInit prev u ts) (mkTextEvent c)).sentMessageHashes := by
    rw [h1e]
    simp [sendInit]
  have h2 := handleEvent_text_skip
    (handleEvent (sendInit prev u ts) (mkTextEvent c)) (prev.length + 1)
    ⟨c, "", ""⟩ "" hres2 (Or.inr hmem2)
  have h2e : handleEvent (handleEvent (sendInit prev u ts) (mkTextEvent c))
      (mkTextEvent c) =
      { handleEvent (sendInit prev u ts) (mkTextEvent c) with
        currentIndex := some (prev.length + 1) } := h2
  have hfold : processEvents (sendInit prev u ts)
      [mkTextEvent c, mkTextEvent c] =
      handleEvent (handleEvent (sendInit prev u ts) (mkTextEvent c))
        (mkTextEvent c) := rfl
  rw [hfold, h2e, h1e]
  exact ⟨rfl, rfl⟩

/-- C4 witness: the amended per-send rejection evaluated on payload A. -/
theorem ledger_rejects_within_one_send_witness :
    (processEvents (sendInit [] "u" "t")
        [mkTextEvent "A", mkTextEvent "A"]).textEventCount = 1 ∧
    (processEvents (sendInit [] "u" "t")
        [mkTextEvent "A", mkTextEvent "A"]).sentMessageHashes = ["A"] :=
  ledger_rejects_within_one_send [] "u" "t" "A" (by decide)

/-- C5 counterexample: the accepted unit A is visible in the transcript
after its acceptance and is then overwritten by the later accepted unit
B, so an accepted unit is not retained. -/
theorem transcript_overwrite_cex :
    overwriteStream1.messages.map Message.content = ["hi", "A"] ∧
    overwriteStream2.messages.map Message.content = ["hi", "B"] ∧
    "A" ∈ overwriteStream2.sentMessageHashes := by
  decide

/-- C5 (amended): over any event stream, no message is added or removed
by event handling, roles never change, and each message events list only
grows by appending in arrival order; the one non-append-only mutation is
that the current assistant message text content is replaced by the most
recent accepted text payload. -/
theorem transcript_shape_append_only (s : ConvState) (es : List SSEEvent) :
    (processEvents s es).messages.length = s.messages.length ∧
    ∀ (j : Nat) (mj : Message), s.messages[j]? = some mj →
      ∃ mj2 : Message, (processEvents s es).messages[j]? = some mj2 ∧
        mj2.role = mj.role ∧
        ∃ t2 : List SSEEvent, mj2.events = mj.events ++ t2 := by
  induction es generalizing s with
  | nil => exact shape_refl s.messages
  | cons e es ih =>
      have h1 := handleEvent_shape s e
      have h2 := ih (handleEvent s e)
      constructor
      · exact h2.1.trans h1.1
      · intro j mj hj
        obtain ⟨m1, hm1, hrole1, t1, ht1⟩ := h1.2 j mj hj
        obtain ⟨m2, hm2, hrole2, t2, ht2⟩ := h2.2 j m1 hm1
        refine ⟨m2, hm2, hrole2.trans hrole1, t1 ++ t2, ?_⟩
        rw [ht2, ht1, List.append_assoc]

/-- C5 witness: the shape preservation evaluated on a one-event stream
against the assistant placeholder. -/
theorem transcript_shape_append_only_witness :
    ∃ mj2 : Message,
      (processEvents (sendInit [] "u" "t")
          [mkTextEvent "A"]).messages[1]? = some mj2 ∧
      mj2.role = (mkAssistantPlaceholder "t").role ∧
      ∃ t2 : List SSEEvent,
        mj2.events = (mkAssistantPlaceholder "t").events ++ t2 :=
  (transcript_shape_append_only (sendInit [] "u" "t")
    [mkTextEvent "A"]).2 1 (mkAssistantPlaceholder "t") (by decide)

/-- C7 counterexample: the wire tags actually produced include
"thought" and "requirements_confirmed", which are not among the kinds
the claim prescribes, and the wire record has no turnId and no sequence
field. -/
theorem wire_event_shape_cex :
    SSEEventType.tag SSEEventType.thought ∉ specWireKinds ∧
    SSEEventType.tag SSEEventType.requirements_confirmed ∉ specWireKinds ∧
    "turnId" ∉ sseEventFieldNames ∧
    "sequence" ∉ sseEventFieldNames := by
  decide

/-- C7 (amended): every event for transport is a tagged record with
exactly the fields type, data and timestamp, whose tag is one of
thought, tool_call, tool_call_result, text, error,
requirements_confirmed, done; no turnId or per-conversation sequence
number is carried. -/
theorem wire_event_shape_amended :
    (∀ e : SSEEventType, e.tag ∈ sseEventTypeTags) ∧
    sseEventFieldNames = ["type", "data", "timestamp"] :=
  ⟨fun e => by cases e <;> decide, rfl⟩

/-- C9 counterexample: after an attach during an in-flight turn the
component holds exactly the persisted prefix but no SSE connection, so a
subsequently accepted live unit is never delivered to this subscriber —
there is no live tail. -/
theorem attach_live_tail_cex :
    attachSample.messages.map Message.content = ["hello"] ∧
    attachSample.sseConnected = false ∧
    receiveLiveEvent attachSample (mkTextEvent "tail") = attachSample := by
  decide

/-- C9 (amended): an attach replays the persisted transcript exactly
once, in order and with unchanged multiplicity, but opens no live
subscription: live units reach the component only through the streams
opened by send-message or code-generation, and no sequence numbers exist
for gap detection. -/
theorem attach_replays_persisted_once (persisted : List ApiMessage) :
    (mountComponent persisted).messages = persisted.map formatMessage ∧
    (mountComponent persisted).messages.length = persisted.length ∧
    (mountComponent persisted).sseConnected = false ∧
    ∀ e : SSEEvent,
      receiveLiveEvent (mountComponent persisted) e =
        mountComponent persisted := by
  refine ⟨rfl, ?_, rfl, ?_⟩
  · simp [mountComponent]
  · intro e
    simp [receiveLiveEvent, mountComponent]

/-- C10: on a send-message stream an accepted text event overwrites the
entire content of the current assistant message with exactly the event
payload, a rejected (empty or duplicate) text event leaves the messages
unchanged, and on a code-generation stream the last assistant message
content always equals the payload of the most recent text event. -/
theorem text_event_replaces_content :
    (∀ (s : ConvState) (e : SSEEvent) (i : Nat) (m : Message),
        e.type = SSEEventType.text → resolveIndex s = some i →
        s.messages[i]? = some m → m.role = Role.assistant →
        ¬ e.data.content = "" → e.data.content ∉ s.sentMessageHashes →
        (handleEvent s e).messages[i]? =
          some ⟨m.role, e.data.content,
                if e.timestamp = "" then m.timestamp else e.timestamp,
                m.events⟩) ∧
    (∀ (s : ConvState) (e : SSEEvent),
        e.type = SSEEventType.text →
        (e.data.content = "" ∨ e.data.content ∈ s.sentMessageHashes) →
        (handleEvent s e).messages = s.messages) ∧
    (∀ (prev : List Message) (ts : String) (cs : List String),
        (((cs.map mkTextEvent).foldl genHandleEvent
            (genInit prev ts)).messages).getLast? =
          some ⟨Role.assistant, cs.getLastD generationStartText, ts, []⟩) := by
  refine ⟨?_, ?_, ?_⟩
  · intro s e i m hty hres hm hrole hc hmem
    obtain ⟨ty, d, ts2⟩ := e
    dsimp only at hty hc hmem ⊢
    subst hty
    rw [handleEvent_text_accept s i d ts2 hres hc hmem]
    dsimp only
    rw [setMessageContent, hm]
    dsimp only
    rw [if_pos hrole]
    exact List.getElem?_set_self (getElem?_some_lt hm)
  · intro s e hty h
    cases hres : resolveIndex s with
    | none => rw [handleEvent, hres]
    | some i =>
        obtain ⟨ty, d, ts2⟩ := e
        dsimp only at hty h
        subst hty
        rw [handleEvent_text_skip s i d ts2 hres h]
  · intro prev ts cs
    have hlast : (genInit prev ts).messages.getLast? =
        some ⟨Role.assistant, generationStartText, ts, []⟩ :=
      List.getLast?_concat _
    exact genFold_text_last cs (genInit prev ts)
      ⟨Role.assistant, generationStartText, ts, []⟩ hlast rfl

/-- C10 witness: the replacement behavior evaluated on the assistant
placeholder and payload A. -/
theorem text_event_replaces_content_witness :
    (handleEvent (sendInit [] "u" "t") (mkTextEvent "A")).messages[1]? =
      some ⟨Role.assistant, "A", "t", []⟩ := by
  have h := text_event_replaces_content.1 (sendInit [] "u" "t")
    (mkTextEvent "A") 1 (mkAssistantPlaceholder "t") rfl rfl (by decide)
    rfl (by decide) (by decide)
  simpa using h

/-! ### Lemmas about the dialogue state machine -/

/-- A turn at a terminal stage never moves again, whatever the fuel. -/
lemma runTurn_terminal (c : Collab) (n : Nat) (t : TurnState)
    (h : t.stage.isTerminal = true) : runTurn c n t = t := by
  cases n with
  | zero => rfl
  | succ n => rw [runTurn, if_pos h]

/-- The transition rule never routes to a terminal or failed stage. -/
lemma routeAfterConverse_ne_failed (rs : RequirementsSnapshot) :
    routeAfterConverse rs ≠ Stage.failed := by
  rw [routeAfterConverse]
  split
  · intro h; exact Stage.noConfusion h
  · split
    · intro h; exact Stage.noConfusion h
    · intro h; exact Stage.noConfusion h

/-- A terminal stage is Done or Failed. -/
lemma terminal_done_or_failed (st : Stage) (h : st.isTerminal = true) :
    st = Stage.done ∨ st = Stage.failed := by
  cases st with
  | done => exact Or.inl rfl
  | failed => exact Or.inr rfl
  | converse => exact absurd h (by decide)
  | extractRequirements => exact absurd h (by decide)
  | generateClarifications => exact absurd h (by decide)
  | confirm => exact absurd h (by decide)
  | handoff => exact absurd h (by decide)

lemma errCount_append (a b : List EmittedUnit) :
    errCount (a ++ b) = errCount a + errCount b := by
  rw [errCount, errCount, errCount, List.filter_append, List.length_append]

/-- A unit appended by a stage execution is confirmation-shaped only
when the Confirm stage produced it. -/
lemma step_units_confirm (c : Collab) (t : TurnState) (u : EmittedUnit)
    (h : u ∈ (stepTurn c t).units)
    (hshape : u.payload.isConfirmationShaped = true) :
    u ∈ t.units ∨ u.stage = Stage.confirm := by
  obtain ⟨st, rs, us, cs, rc⟩ := t
  cases st with
  | converse =>
      simp only [stepTurn] at h
      by_cases hfin : rs.finalized = true
      · rw [if_pos hfin] at h
        exact Or.inl h
      · rw [if_neg hfin] at h
        cases hcall : c.complete cs.length with
        | ok txt =>
            rw [hcall] at h
            dsimp only at h
            rcases List.mem_append.mp h with h | h
            · exact Or.inl h
            · rw [List.mem_singleton] at h
              subst h
              simp [Payload.isConfirmationShaped, errUnit] at hshape
        | error msg =>
            rw [hcall] at h
            dsimp only at h
            rcases List.mem_append.mp h with h | h
            · exact Or.inl h
            · rw [List.mem_singleton] at h
              subst h
              simp [Payload.isConfirmationShaped, errUnit] at hshape
  | extractRequirements =>
      simp only [stepTurn] at h
      cases hcall : c.extract cs.length with
      | ok orues =>
          rw [hcall] at h
          cases orues with
          | none => exact Or.inl h
          | some rs2 => exact Or.inl h
      | error msg =>
          rw [hcall] at h
          dsimp only at h
          rcases List.mem_append.mp h with h | h
          · exact Or.inl h
          · rw [List.mem_singleton] at h
            subst h
            simp [Payload.isConfirmationShaped, errUnit] at hshape
  | generateClarifications =>
      simp only [stepTurn] at h
      cases hcall : c.clarify cs.length with
      | ok qs =>
          rw [hcall] at h
          exact Or.inl h
      | error msg =>
          rw [hcall] at h
          dsimp only at h
          rcases List.mem_append.mp h with h | h
          · exact Or.inl h
          · rw [List.mem_singleton] at h
            subst h
            simp [Payload.isConfirmationShaped, errUnit] at hshape
  | confirm =>
      simp only [stepTurn] at h
      rcases List.mem_append.mp h with h | h
      · exact Or.inl h
      · rw [List.mem_singleton] at h
        subst h
        exact Or.inr rfl
  | handoff =>
      simp only [stepTurn] at h
      rcases List.mem_append.mp h with h | h
      · exact Or.inl h
      · rw [List.mem_singleton] at h
        subst h
        simp [Payload.isConfirmationShaped, errUnit] at hshape
  | done => exact Or.inl h
  | failed => exact Or.inl h

/-- Reduction: Converse short-circuits on a finalized snapshot. -/
lemma stepTurn_converse_finalized (c : Collab) (rs : RequirementsSnapshot)
    (us : List EmittedUnit) (cs : List Stage) (rc : Bool)
    (hfin : rs.finalized = true) :
    stepTurn c ⟨Stage.converse, rs, us, cs, rc⟩ =
      ⟨routeAfterConverse rs, rs, us, cs, rc⟩ := by
  simp only [stepTurn]
  rw [if_pos hfin]

/-- Reduction: a successful Converse completion call. -/
lemma stepTurn_converse_ok (c : Collab) (rs : RequirementsSnapshot)
    (us : List EmittedUnit) (cs : List Stage) (rc : Bool) (txt : String)
    (hfin : rs.finalized = false)
    (hcall : c.complete cs.length = Except.ok txt) :
    stepTurn c ⟨Stage.converse, rs, us, cs, rc⟩ =
      ⟨routeAfterConverse rs, rs,
       us ++ [⟨UnitKind.assistantText, Payload.llmText txt, Stage.converse⟩],
       cs ++ [Stage.converse], rc⟩ := by
  simp only [stepTurn]
  rw [if_neg (by simp [hfin]), hcall]

/-- Reduction: a failed Converse completion call. -/
lemma stepTurn_converse_err (c : Collab) (rs : RequirementsSnapshot)
    (us : List EmittedUnit) (cs : List Stage) (rc : Bool) (msg : String)
    (hfin : rs.finalized = false)
    (hcall : c.complete cs.length = Except.error msg) :
    stepTurn c ⟨Stage.converse, rs, us, cs, rc⟩ =
      ⟨Stage.failed, rs, us ++ [errUnit msg Stage.converse],
       cs ++ [Stage.converse], rc⟩ := by
  simp only [stepTurn]
  rw [if_neg (by simp [hfin]), hcall]

/-- Reduction: extraction that yields a snapshot. -/
lemma stepTurn_extract_some (c : Collab) (rs : RequirementsSnapshot)
    (us : List EmittedUnit) (cs : List Stage) (rc : Bool)
    (rs2 : RequirementsSnapshot)
    (hcall : c.extract cs.length = Except.ok (some rs2)) :
    stepTurn c ⟨Stage.extractRequirements, rs, us, cs, rc⟩ =
      ⟨Stage.converse, rs2, us, cs ++ [Stage.extractRequirements], rc⟩ := by
  simp only [stepTurn]
  rw [hcall]

/-- Reduction: extraction that yields nothing. -/
lemma stepTurn_extract_none (c : Collab) (rs : RequirementsSnapshot)
    (us : List EmittedUnit) (cs : List Stage) (rc : Bool)
    (hcall : c.extract cs.length = Except.ok none) :
    stepTurn c ⟨Stage.extractRequirements, rs, us, cs, rc⟩ =
      ⟨Stage.converse, rs, us, cs ++ [Stage.extractRequirements], rc⟩ := by
  simp only [stepTurn]
  rw [hcall]

/-- Reduction: a failed extraction call. -/
lemma stepTurn_extract_err (c : Collab) (rs : RequirementsSnapshot)
    (us : List EmittedUnit) (cs : List Stage) (rc : Bool) (msg : String)
    (hcall : c.extract cs.length = Except.error msg) :
    stepTurn c ⟨Stage.extractRequirements, rs, us, cs, rc⟩ =
      ⟨Stage.failed, rs, us ++ [errUnit msg Stage.extractRequirements],
       cs ++ [Stage.extractRequirements], rc⟩ := by
  simp only [stepTurn]
  rw [hcall]

/-- Reduction: a successful clarification call. -/
lemma stepTurn_clarify_ok (c : Collab) (rs : RequirementsSnapshot)
    (us : List EmittedUnit) (cs : List Stage) (rc : Bool) (qs : List String)
    (hcall : c.clarify cs.length = Except.ok qs) :
    stepTurn c ⟨Stage.generateClarifications, rs, us, cs, rc⟩ =
      ⟨Stage.converse, ⟨rs.requirements, qs⟩, us,
       cs ++ [Stage.generateClarifications], rc⟩ := by
  simp only [stepTurn]
  rw [hcall]

/-- Reduction: a failed clarification call. -/
lemma stepTurn_clarify_err (c : Collab) (rs : RequirementsSnapshot)
    (us : List EmittedUnit) (cs : List Stage) (rc : Bool) (msg : String)
    (hcall : c.clarify cs.length = Except.error msg) :
    stepTurn c ⟨Stage.generateClarifications, rs, us, cs, rc⟩ =
      ⟨Stage.failed, rs, us ++ [errUnit msg Stage.generateClarifications],
       cs ++ [Stage.generateClarifications], rc⟩ := by
  simp only [stepTurn]
  rw [hcall]

/-- A fully concrete collaborator used to instantiate witnesses. -/
def constCollab : Collab :=
  ⟨fun _ => Except.ok "text", fun _ => Except.ok none, fun _ => Except.ok []⟩

/-- A collaborator whose extraction call fails. -/
def failCollab : Collab :=
  ⟨fun _ => Except.ok "hi", fun _ => Except.error "boom",
   fun _ => Except.ok []⟩

/-- A turn state sitting at the Confirm stage. -/
def confirmSample : TurnState := ⟨Stage.confirm, ⟨some "r", []⟩, [], [], false⟩

/-- C2: in a turn starting with a finalized RequirementsSnapshot the
machine makes no completion-service call at all (so Converse never
calls, it short-circuits straight through the transition rule), the only
unit produced is the Confirm text unit, and the turn ends Done. -/
theorem no_stale_confirmation (c : Collab) (rs : RequirementsSnapshot)
    (fuel : Nat) (hfin : rs.finalized = true) (hfuel : 2 ≤ fuel) :
    (runTurn c fuel (initTurn rs)).calls = [] ∧
    (runTurn c fuel (initTurn rs)).units = [confirmUnit rs] ∧
    (runTurn c fuel (initTurn rs)).stage = Stage.done := by
  obtain ⟨req, qs⟩ := rs
  rw [RequirementsSnapshot.finalized] at hfin
  rw [Bool.and_eq_true] at hfin
  obtain ⟨hreq, hqs⟩ := hfin
  obtain ⟨r, rfl⟩ := Option.isSome_iff_exists.mp hreq
  have hqs2 : qs = [] := List.isEmpty_iff.mp hqs
  subst hqs2
  obtain ⟨n, rfl⟩ : ∃ n, fuel = Nat.succ (Nat.succ n) := ⟨fuel - 2, by omega⟩
  have h0 : runTurn c (Nat.succ (Nat.succ n)) (initTurn ⟨some r, []⟩) =
      runTurn c n
        ⟨Stage.done, ⟨some r, []⟩, [confirmUnit ⟨some r, []⟩], [], true⟩ := rfl
  rw [h0, runTurn_terminal c n
    ⟨Stage.done, ⟨some r, []⟩, [confirmUnit ⟨some r, []⟩], [], true⟩ rfl]
  exact ⟨rfl, rfl, rfl⟩

/-- C2 witness: the short-circuit evaluated at a concrete finalized
snapshot with two stage executions of fuel. -/
theorem no_stale_confirmation_witness :
    (runTurn constCollab 2 (initTurn ⟨some "req", []⟩)).calls = [] ∧
    (runTurn constCollab 2 (initTurn ⟨some "req", []⟩)).units =
      [confirmUnit ⟨some "req", []⟩] ∧
    (runTurn constCollab 2 (initTurn ⟨some "req", []⟩)).stage = Stage.done :=
  no_stale_confirmation constCollab ⟨some "req", []⟩ 2 (by decide) (by decide)

/-- C3: whenever the Confirm stage executes it produces exactly one
assistant-text unit (the confirmation summary), sets
requirementsConfirmed and transitions the turn to Done; and in any run,
every confirmation-shaped unit that appears was produced by the Confirm
stage. -/
theorem confirm_postcondition (c : Collab) :
    (∀ t : TurnState, t.stage = Stage.confirm →
        stepTurn c t = { t with stage := Stage.done,
                                requirementsConfirmed := true,
                                units := t.units ++ [confirmUnit t.rs] }) ∧
    (∀ (fuel : Nat) (t : TurnState) (u : EmittedUnit),
        u ∈ (runTurn c fuel t).units →
        u.payload.isConfirmationShaped = true →
        u ∈ t.units ∨ u.stage = Stage.confirm) := by
  constructor
  · intro t ht
    obtain ⟨st, rs, us, cs, rc⟩ := t
    dsimp only at ht
    subst ht
    rfl
  · intro fuel
    induction fuel with
    | zero =>
        intro t u hu _
        exact Or.inl hu
    | succ n ih =>
        intro t u hu hshape
        by_cases hterm : t.stage.isTerminal = true
        · rw [runTurn, if_pos hterm] at hu
          exact Or.inl hu
        · rw [runTurn, if_neg hterm] at hu
          rcases ih (stepTurn c t) u hu hshape with h | h
          · exact step_units_confirm c t u h hshape
          · exact Or.inr h

/-- C3 witness: the Confirm postcondition evaluated at a concrete
turn state sitting at Confirm. -/
theorem confirm_postcondition_witness :
    stepTurn constCollab confirmSample =
      { confirmSample with stage := Stage.done,
                           requirementsConfirmed := true,
                           units := confirmSample.units ++
                             [confirmUnit confirmSample.rs] } :=
  (confirm_postcondition constCollab).1 confirmSample rfl

/-- One non-terminal stage execution adds an error unit exactly when it
moves the turn to Failed. -/
lemma stepTurn_errCount (c : Collab) (t : TurnState)
    (h : t.stage.isTerminal = false) :
    errCount (stepTurn c t).units =
      errCount t.units +
        (if (stepTurn c t).stage = Stage.failed then 1 else 0) := by
  obtain ⟨st, rs, us, cs, rc⟩ := t
  cases st with
  | converse =>
      by_cases hfin : rs.finalized = true
      · rw [stepTurn_converse_finalized c rs us cs rc hfin]
        dsimp only
        rw [if_neg (routeAfterConverse_ne_failed rs), Nat.add_zero]
      · have hfin2 : rs.finalized = false := by
          cases hb : rs.finalized
          · rfl
          · exact absurd hb hfin
        cases hcall : c.complete cs.length with
        | ok txt =>
            rw [stepTurn_converse_ok c rs us cs rc txt hfin2 hcall]
            dsimp only
            rw [if_neg (routeAfterConverse_ne_failed rs), Nat.add_zero,
              errCount_append]
            have hz : errCount
                [⟨UnitKind.assistantText, Payload.llmText txt,
                  Stage.converse⟩] = 0 := rfl
            rw [hz, Nat.add_zero]
        | error msg =>
            rw [stepTurn_converse_err c rs us cs rc msg hfin2 hcall]
            dsimp only
            rw [if_pos rfl, errCount_append]
            have ho : errCount [errUnit msg Stage.converse] = 1 := rfl
            rw [ho]
  | extractRequirements =>
      cases hcall : c.extract cs.length with
      | ok ors =>
          cases ors with
          | some rs2 =>
              rw [stepTurn_extract_some c rs us cs rc rs2 hcall]
              dsimp only
              rw [if_neg (by decide), Nat.add_zero]
          | none =>
              rw [stepTurn_extract_none c rs us cs rc hcall]
              dsimp only
              rw [if_neg (by decide), Nat.add_zero]
      | error msg =>
          rw [stepTurn_extract_err c rs us cs rc msg hcall]
          dsimp only
          rw [if_pos rfl, errCount_append]
          have ho : errCount [errUnit msg Stage.extractRequirements] = 1 := rfl
          rw [ho]
  | generateClarifications =>
      cases hcall : c.clarify cs.length with
      | ok qs =>
          rw [stepTurn_clarify_ok c rs us cs rc qs hcall]
          dsimp only
          rw [if_neg (by decide), Nat.add_zero]
      | error msg =>
          rw [stepTurn_clarify_err c rs us cs rc msg hcall]
          dsimp only
          rw [if_pos rfl, errCount_append]
          have ho : errCount [errUnit msg Stage.generateClarifications] = 1 :=
            rfl
          rw [ho]
  | confirm =>
      have hred : stepTurn c ⟨Stage.confirm, rs, us, cs, rc⟩ =
          ⟨Stage.done, rs, us ++ [confirmUnit rs], cs, true⟩ := rfl
      rw [hred]
      dsimp only
      rw [if_neg (by decide), Nat.add_zero, errCount_append]
      have hz : errCount [confirmUnit rs] = 0 := rfl
      rw [hz, Nat.add_zero]
  | handoff =>
      have hred : stepTurn c ⟨Stage.handoff, rs, us, cs, rc⟩ =
          ⟨Stage.done, rs,
           us ++ [⟨UnitKind.toolInvocation,
                   Payload.handoffSignal (rs.requirements.getD ""),
                   Stage.handoff⟩], cs, rc⟩ := rfl
      rw [hred]
      dsimp only
      rw [if_neg (by decide), Nat.add_zero, errCount_append]
      have hz : errCount
          [⟨UnitKind.toolInvocation,
            Payload.handoffSignal (rs.requirements.getD ""),
            Stage.handoff⟩] = 0 := rfl
      rw [hz, Nat.add_zero]
  | done => simp [Stage.isTerminal] at h
  | failed => simp [Stage.isTerminal] at h

/-- Along a whole run started with no error units, the turn ends with
exactly one error unit when it fails and none otherwise. -/
lemma runTurn_errCount (c : Collab) (fuel : Nat) :
    ∀ t : TurnState, errCount t.units = 0 → t.stage ≠ Stage.failed →
      ((runTurn c fuel t).stage = Stage.failed →
        errCount (runTurn c fuel t).units = 1) ∧
      ((runTurn c fuel t).stage ≠ Stage.failed →
        errCount (runTurn c fuel t).units = 0) := by
  induction fuel with
  | zero =>
      intro t h0 hnf
      exact ⟨fun hf => absurd hf hnf, fun _ => h0⟩
  | succ n ih =>
      intro t h0 hnf
      by_cases hterm : t.stage.isTerminal = true
      · rw [runTurn, if_pos hterm]
        exact ⟨fun hf => absurd hf hnf, fun _ => h0⟩
      · rw [runTurn, if_neg hterm]
        have hterm2 : t.stage.isTerminal = false := by
          cases hb : t.stage.isTerminal
          · rfl
          · exact absurd hb hterm
        by_cases hfail : (stepTurn c t).stage = Stage.failed
        · have hc1 : errCount (stepTurn c t).units = 1 := by
            rw [stepTurn_errCount c t hterm2, if_pos hfail, h0]
          have hterm3 : (stepTurn c t).stage.isTerminal = true := by
            rw [hfail]
            rfl
          rw [runTurn_terminal c n (stepTurn c t) hterm3]
          exact ⟨fun _ => hc1, fun hnf2 => absurd hfail hnf2⟩
        · have hc0 : errCount (stepTurn c t).units = 0 := by
            rw [stepTurn_errCount c t hterm2, if_neg hfail, h0]
          exact ih (stepTurn c t) hc0 hfail

/-- C6: a failing collaborator call inside Converse, ExtractRequirements
or GenerateClarifications emits exactly one error unit, terminates the
turn in Failed and leaves the RequirementsSnapshot unchanged (the
record update touches no other field); a whole turn run carries exactly
one error unit when it fails and none otherwise; and after a turn ends
the coordinator releases the lock so a subsequent user message starts a
fresh turn. -/
theorem turn_failure_atomicity (c : Collab) :
    (∀ (t : TurnState) (msg : String),
        t.stage = Stage.converse → t.rs.finalized = false →
        c.complete t.calls.length = Except.error msg →
        stepTurn c t = { t with stage := Stage.failed,
                                calls := t.calls ++ [Stage.converse],
                                units := t.units ++
                                  [errUnit msg Stage.converse] }) ∧
    (∀ (t : TurnState) (msg : String),
        t.stage = Stage.extractRequirements →
        c.extract t.calls.length = Except.error msg →
        stepTurn c t = { t with stage := Stage.failed,
                                calls := t.calls ++
                                  [Stage.extractRequirements],
                                units := t.units ++
                                  [errUnit msg Stage.extractRequirements] }) ∧
    (∀ (t : TurnState) (msg : String),
        t.stage = Stage.generateClarifications →
        c.clarify t.calls.length = Except.error msg →
        stepTurn c t = { t with stage := Stage.failed,
                                calls := t.calls ++
                                  [Stage.generateClarifications],
                                units := t.units ++
                                  [errUnit msg
                                    Stage.generateClarifications] }) ∧
    (∀ (fuel : Nat) (rs : RequirementsSnapshot),
        ((runTurn c fuel (initTurn rs)).stage = Stage.failed →
          errCount (runTurn c fuel (initTurn rs)).units = 1) ∧
        ((runTurn c fuel (initTurn rs)).stage ≠ Stage.failed →
          errCount (runTurn c fuel (initTurn rs)).units = 0)) ∧
    (∀ (s : CoordState) (id : Nat) (t : TurnState),
        s.active = some (id, t) → t.stage = Stage.failed →
        (stepCoord c s Cmd.tick).active = none) ∧
    (∀ (s : CoordState) (m : String),
        s.active = none → s.queue = [] →
        (stepCoord c (stepCoord c s (Cmd.submit m)) Cmd.tick).active =
          some (s.nextId, initTurn ⟨none, []⟩)) := by
  refine ⟨?_, ?_, ?_, ?_, ?_, ?_⟩
  · intro t msg hst hfin hcall
    obtain ⟨st, rs, us, cs, rc⟩ := t
    dsimp only at hst hfin hcall
    subst hst
    exact stepTurn_converse_err c rs us cs rc msg hfin hcall
  · intro t msg hst hcall
    obtain ⟨st, rs, us, cs, rc⟩ := t
    dsimp only at hst hcall
    subst hst
    exact stepTurn_extract_err c rs us cs rc msg hcall
  · intro t msg hst hcall
    obtain ⟨st, rs, us, cs, rc⟩ := t
    dsimp only at hst hcall
    subst hst
    exact stepTurn_clarify_err c rs us cs rc msg hcall
  · intro fuel rs
    refine runTurn_errCount c fuel (initTurn rs) rfl ?_
    intro hx
    exact Stage.noConfusion hx
  · intro s id t hact hst
    have hterm : t.stage.isTerminal = true := by rw [hst]; rfl
    simp only [stepCoord, hact]
    rw [if_pos hterm]
  · intro s m hact hq
    have hsub : stepCoord c s (Cmd.submit m) =
        { s with queue := s.queue ++ [m] } := rfl
    rw [hsub]
    simp only [stepCoord, hact, hq]
    rfl

/-- C6 witness: a run whose extraction call fails ends Failed with
exactly one error unit. -/
theorem turn_failure_atomicity_witness :
    (runTurn failCollab 5 (initTurn ⟨none, []⟩)).stage = Stage.failed ∧
    errCount (runTurn failCollab 5 (initTurn ⟨none, []⟩)).units = 1 := by
  have h := (turn_failure_atomicity failCollab).2.2.2.1 5 ⟨none, []⟩
  have hf : (runTurn failCollab 5 (initTurn ⟨none, []⟩)).stage =
      Stage.failed := by decide
  exact ⟨hf, h.1 hf⟩

/-- The coordinator invariant: trace ids are bounded by the id counter,
the active id is the most recent one, the trace is monotone in ids, and
every traced turn is finished with a terminal stage or is the active
one. -/
def CoordInv (s : CoordState) : Prop :=
  (∀ e ∈ s.trace, e.1 < s.nextId) ∧
  (∀ (id : Nat) (t : TurnState), s.active = some (id, t) →
      id + 1 = s.nextId) ∧
  s.trace.Pairwise (fun a b => a.1 ≤ b.1) ∧
  (∀ e ∈ s.trace,
      (∃ q ∈ s.finished,
          q.1 = e.1 ∧ (q.2 = Stage.done ∨ q.2 = Stage.failed)) ∨
      (∃ t, s.active = some (e.1, t)))

lemma coordInv_init : CoordInv initCoord := by
  refine ⟨?_, ?_, ?_, ?_⟩
  · intro e he
    exact absurd he (List.not_mem_nil e)
  · intro id t heq
    exact Option.noConfusion heq
  · exact List.Pairwise.nil
  · intro e he
    exact absurd he (List.not_mem_nil e)

lemma coordInv_step (c : Collab) (s : CoordState) (cmd : Cmd)
    (h : CoordInv s) : CoordInv (stepCoord c s cmd) := by
  obtain ⟨h1, h2, h3, h4⟩ := h
  cases cmd with
  | submit m => exact ⟨h1, h2, h3, h4⟩
  | tick =>
      cases hact : s.active with
      | none =>
          cases hq : s.queue with
          | nil =>
              have hred : stepCoord c s Cmd.tick = s := by
                simp only [stepCoord, hact, hq]
              rw [hred]
              exact ⟨h1, h2, h3, h4⟩
          | cons m rest =>
              have hred : stepCoord c s Cmd.tick =
                  { s with active := some (s.nextId, initTurn ⟨none, []⟩),
                           nextId := s.nextId + 1, queue := rest } := by
                simp only [stepCoord, hact, hq]
              rw [hred]
              refine ⟨?_, ?_, h3, ?_⟩
              · intro e he
                exact Nat.lt_succ_of_lt (h1 e he)
              · intro id t heq
                dsimp only at heq ⊢
                injection heq with heq
                have h5 : s.nextId = id := congrArg Prod.fst heq
                omega
              · intro e he
                rcases h4 e he with hfin | ⟨t, hson⟩
                · exact Or.inl hfin
                · rw [hact] at hson
                  exact Option.noConfusion hson
      | some p =>
          obtain ⟨id, t⟩ := p
          by_cases hterm : t.stage.isTerminal = true
          · have hred : stepCoord c s Cmd.tick =
                { s with active := none,
                         finished := s.finished ++ [(id, t.stage)] } := by
              simp only [stepCoord, hact]
              rw [if_pos hterm]
            rw [hred]
            refine ⟨h1, ?_, h3, ?_⟩
            · intro id2 t2 heq
              exact Option.noConfusion heq
            · intro e he
              rcases h4 e he with ⟨q, hqmem, hq1, hq2⟩ | ⟨t2, hson⟩
              · exact Or.inl ⟨q, List.mem_append_left _ hqmem, hq1, hq2⟩
              · rw [hact] at hson
                injection hson with hson
                have hid : id = e.1 := congrArg Prod.fst hson
                refine Or.inl ⟨(id, t.stage),
                  List.mem_append_right _ (List.mem_singleton_self _),
                  hid, ?_⟩
                exact terminal_done_or_failed t.stage hterm
          · have hred : stepCoord c s Cmd.tick =
                { s with active := some (id, stepTurn c t),
                         trace := s.trace ++ [(id, t.stage)] } := by
              simp only [stepCoord, hact]
              rw [if_neg hterm]
            rw [hred]
            have hid : id + 1 = s.nextId := h2 id t hact
            refine ⟨?_, ?_, ?_, ?_⟩
            · intro e he
              dsimp only at he ⊢
              rcases List.mem_append.mp he with he | he
              · exact h1 e he
              · rw [List.mem_singleton] at he
                subst he
                omega
            · intro id2 t2 heq
              dsimp only at heq ⊢
              injection heq with heq
              have h5 : id = id2 := congrArg Prod.fst heq
              omega
            · dsimp only
              rw [List.pairwise_append]
              refine ⟨h3, List.pairwise_singleton _ _, ?_⟩
              intro a ha b hb
              rw [List.mem_singleton] at hb
              subst hb
              have h6 := h1 a ha
              dsimp only
              omega
            · intro e he
              dsimp only at he
              rcases List.mem_append.mp he with he | he
              · rcases h4 e he with hfin | ⟨t2, hson⟩
                · exact Or.inl hfin
                · rw [hact] at hson
                  injection hson with hson
                  have hid2 : id = e.1 := congrArg Prod.fst hson
                  exact Or.inr ⟨stepTurn c t, by rw [← hid2]⟩
              · rw [List.mem_singleton] at he
                subst he
                exact Or.inr ⟨stepTurn c t, rfl⟩

lemma coordInv_foldl (c : Collab) (cmds : List Cmd) :
    ∀ s : CoordState, CoordInv s →
      CoordInv (cmds.foldl (stepCoord c) s) := by
  induction cmds with
  | nil => intro s h; exact h
  | cons cmd cmds ih =>
      intro s h
      exact ih (stepCoord c s cmd) (coordInv_step c s cmd h)

/-- C8: for any command sequence the coordinator trace of stage
executions is serialized — ids never interleave, every traced turn
other than the single active one has finished in Done or Failed — and a
message submitted while a turn is active is queued, leaving the active
turn and the trace untouched. -/
theorem turn_serialization (c : Collab) (cmds : List Cmd) :
    turnSerialized (runCoord c cmds) ∧
    (∀ (s : CoordState) (m : String) (id : Nat) (t : TurnState),
        s.active = some (id, t) →
        (stepCoord c s (Cmd.submit m)).queue = s.queue ++ [m] ∧
        (stepCoord c s (Cmd.submit m)).active = s.active ∧
        (stepCoord c s (Cmd.submit m)).trace = s.trace) := by
  constructor
  · have h := coordInv_foldl c cmds initCoord coordInv_init
    exact ⟨h.2.2.1, h.2.2.2⟩
  · intro s m id t hact
    exact ⟨rfl, rfl, rfl⟩

/-- A coordinator with one in-flight turn, used for the witness. -/
def busyCoord : CoordState :=
  ⟨1, some (0, initTurn ⟨none, []⟩), [], [], []⟩

/-- C8 witness: submitting during an in-flight turn queues the message
and leaves the active turn and trace untouched. -/
theorem turn_serialization_witness :
    (stepCoord constCollab busyCoord (Cmd.submit "m2")).queue =
      busyCoord.queue ++ ["m2"] ∧
    (stepCoord constCollab busyCoord (Cmd.submit "m2")).active =
      busyCoord.active ∧
    (stepCoord constCollab busyCoord (Cmd.submit "m2")).trace =
      busyCoord.trace :=
  (turn_serialization constCollab []).2 busyCoord "m2" 0
    (initTurn ⟨none, []⟩) rfl

end Spec2Proof
